import Mathlib

/-!
Verification of the angular input pipeline of `egui_extras_xt`
(`src/angle_knob.rs` and `src/compass_knob.rs`).

The source operates on `f32`; the embedding models angles as real numbers.
Rust's truncated remainder (`%`), `f32::round` (round half away from zero),
`f32::floor`/`f32::ceil`, `f32::max`/`f32::min` and `y.atan2(x)` (modelled by
`Complex.arg`, whose range is `(-π, π]` with `arg 0 = 0`, matching IEEE
`atan2`) are given explicit real counterparts below.
-/

open Real

/-- Rust `f32::trunc`: rounds toward zero. -/
noncomputable def rustTrunc (t : ℝ) : ℝ :=
  if 0 ≤ t then (⌊t⌋ : ℤ) else (⌈t⌉ : ℤ)

/-- Rust `%` on floats: truncated remainder `x - y * (x / y).trunc()`. -/
noncomputable def rustRem (x y : ℝ) : ℝ :=
  x - y * rustTrunc (x / y)

/-- Rust `f32::round`: rounds half away from zero. -/
noncomputable def rustRound (x : ℝ) : ℝ :=
  if 0 ≤ x then ((⌊x + 1/2⌋ : ℤ) : ℝ) else -((⌊-x + 1/2⌋ : ℤ) : ℝ)

/-- `std::f32::consts::TAU`, one full turn. -/
noncomputable def TAU : ℝ := 2 * Real.pi

/-- `emath::Vec2::angle`: `self.y.atan2(self.x)`, the polar angle of a
vector, in `(-π, π]`, with the zero vector mapped to `0`. -/
noncomputable def vec2_angle (v : ℝ × ℝ) : ℝ :=
  Complex.arg ⟨v.1, v.2⟩

/-- `emath::Rot2`: a rotation stored as sine and cosine. -/
structure Rot2 where
  s : ℝ
  c : ℝ

/-- `Rot2::from_angle`. -/
noncomputable def Rot2.from_angle (angle : ℝ) : Rot2 :=
  ⟨Real.sin angle, Real.cos angle⟩

/-- `Rot2::length_sq`. -/
noncomputable def Rot2.length_sq (r : Rot2) : ℝ := r.c * r.c + r.s * r.s

/-- `Rot2::inverse`: conjugate divided by the squared length. -/
noncomputable def Rot2.inverse (r : Rot2) : Rot2 :=
  ⟨-r.s / r.length_sq, r.c / r.length_sq⟩

/-- `Rot2 * Vec2`: `(c*x - s*y, s*x + c*y)`. -/
noncomputable def Rot2.mulVec2 (r : Rot2) (v : ℝ × ℝ) : ℝ × ℝ :=
  (r.c * v.1 - r.s * v.2, r.s * v.1 + r.c * v.2)

/-- `f32::max` applied for an optional lower bound, then `f32::min` for an
optional upper bound — the clamp order shared by `angle_knob.rs`
(lines 154–160) and `compass_knob.rs` (lines 188–194). -/
noncomputable def apply_min_max (min max : Option ℝ) (v : ℝ) : ℝ :=
  let v1 := match min with
    | some m => Max.max v m
    | none => v
  match max with
  | some m => Min.min v1 m
  | none => v1

/-- The snap step of both controls: `assert!(angle > 0.0)` then
`(value / angle).round() * angle` (`angle_knob.rs` 150–151,
`compass_knob.rs` 218–222). The assertion failure (panic) is `none`. -/
noncomputable def snap_value (value angle : ℝ) : Option ℝ :=
  if 0 < angle then some (rustRound (value / angle) * angle) else none

-- ---------------------------------------------------------------------------
-- angle_knob.rs
-- ---------------------------------------------------------------------------

/-- `AngleKnobOrientation` (angle_knob.rs lines 7–14). -/
inductive AngleKnobOrientation where
  | Right
  | Bottom
  | Left
  | Top
  | Custom (angle : ℝ)

/-- `AngleKnobOrientation::rot2` (angle_knob.rs lines 17–25). -/
noncomputable def AngleKnobOrientation.rot2 : AngleKnobOrientation → Rot2
  | .Right => Rot2.from_angle (Real.pi * 0)
  | .Bottom => Rot2.from_angle (Real.pi * 0.5)
  | .Left => Rot2.from_angle (Real.pi * 1)
  | .Top => Rot2.from_angle (Real.pi * 1.5)
  | .Custom angle => Rot2.from_angle angle

/-- `AngleKnobDirection` (angle_knob.rs lines 28–32). -/
inductive AngleKnobDirection where
  | Clockwise
  | Counterclockwise

/-- `AngleKnobMode` (angle_knob.rs lines 34–39). -/
inductive AngleKnobMode where
  | Signed
  | Unsigned
  | SpinAround
deriving DecidableEq

/-- Winding sign (angle_knob.rs lines 117–120). -/
def value_direction : AngleKnobDirection → ℝ
  | .Clockwise => 1
  | .Counterclockwise => -1

/-- The dial's raw candidate angle (angle_knob.rs lines 125–128):
polar angle of the inverse-rotated pointer offset, times the winding sign. -/
noncomputable def dial_raw_angle (orientation : AngleKnobOrientation)
    (direction : AngleKnobDirection) (pointer_rel : ℝ × ℝ) : ℝ :=
  vec2_angle (orientation.rot2.inverse.mulVec2 pointer_rel)
    * value_direction direction

/-- The dial's `Unsigned` fold (angle_knob.rs line 131):
`(new_value + TAU) % TAU` with Rust's truncated `%`. -/
noncomputable def dial_unsigned_fold (x : ℝ) : ℝ :=
  rustRem (x + TAU) TAU

/-- The dial's `SpinAround` continuation (angle_knob.rs lines 134–143). -/
noncomputable def spin_around (value new_value : ℝ) : ℝ :=
  let prev_turns := rustRound (value / TAU)
  let nv := new_value + prev_turns * TAU
  if nv - value > Real.pi then nv - TAU
  else if nv - value < -Real.pi then nv + TAU
  else nv

/-- Mode handling of the dial (angle_knob.rs lines 130–143). -/
noncomputable def apply_mode (mode : AngleKnobMode) (value new_value : ℝ) : ℝ :=
  let nv1 := if mode = .Unsigned then dial_unsigned_fold new_value else new_value
  if mode = .SpinAround then spin_around value nv1 else nv1

/-- Optional snapping (angle_knob.rs lines 145–152, compass_knob.rs 213–225):
with no step configured the value passes through; a configured step snaps
(or faults when non-positive). -/
noncomputable def apply_snap (snap_angle : Option ℝ) (new_value : ℝ) : Option ℝ :=
  match snap_angle with
  | some angle => snap_value new_value angle
  | none => some new_value

/-- The per-frame input consumed by `angle_knob`. -/
structure AngleKnobFrame where
  clicked : Bool
  dragged : Bool
  shift_only : Bool
  pointer_rel : ℝ × ℝ

/-- The value-update part of `angle_knob` (angle_knob.rs lines 124–164):
on a clicked or dragged frame, compute the raw angle, apply the mode fold,
snap (fault on a non-positive step), clamp, store, and mark changed;
otherwise leave the value and report no change. Returns
`some (new_value, changed)`, or `none` for the assertion failure. -/
noncomputable def angle_knob_update (orientation : AngleKnobOrientation)
    (direction : AngleKnobDirection) (mode : AngleKnobMode) (value : ℝ)
    (min max snap_angle shift_snap_angle : Option ℝ)
    (frame : AngleKnobFrame) : Option (ℝ × Bool) :=
  if frame.clicked || frame.dragged then
    (apply_snap (if frame.shift_only then shift_snap_angle else snap_angle)
        (apply_mode mode value
          (dial_raw_angle orientation direction frame.pointer_rel))).map
      (fun nv => (apply_min_max min max nv, true))
  else
    some (value, false)

-- ---------------------------------------------------------------------------
-- compass_knob.rs
-- ---------------------------------------------------------------------------

/-- `eframe::emath::normalized_angle`, the `Signed` fold used by
`compass_knob.rs` line 180. Its in-source comment there documents
"inclusive normalization bounds (-PI..=PI)": take the truncated remainder
modulo `TAU` and move the result by one turn when it lies outside
`[-π, π]`. -/
noncomputable def normalized_angle (angle : ℝ) : ℝ :=
  let a := rustRem angle TAU
  if a > Real.pi then a - TAU
  else if a < -Real.pi then a + TAU
  else a

/-- Modelled from the spec: `crate::common::normalized_angle_unsigned_incl`
(the `common` module is not under `src/`). Spec §4.1, `Unsigned`:
"fold into [0, 2π) using `x mod 2π`, non-negative result guaranteed". -/
noncomputable def normalized_angle_unsigned_incl (angle : ℝ) : ℝ :=
  angle - TAU * (⌊angle / TAU⌋ : ℤ)

/-- Modelled from the spec: `crate::common::KnobMode` (the `common` module is
not under `src/`; the variants appear at its use sites). -/
inductive KnobMode where
  | Signed
  | Unsigned
  | SpinAround
deriving DecidableEq

/-- The compass's `constrain_value` closure (compass_knob.rs lines 177–197):
wrap per mode, then clamp to the optional bounds. -/
noncomputable def compass_constrain_value (mode : KnobMode)
    (min max : Option ℝ) (value : ℝ) : ℝ :=
  let v1 := if mode = .Signed then normalized_angle value else value
  let v2 := if mode = .Unsigned then normalized_angle_unsigned_incl v1 else v1
  apply_min_max min max v2

/-- The per-frame input consumed by `CompassKnob::ui`. -/
structure CompassKnobFrame where
  dragged : Bool
  drag_released : Bool
  shift_only : Bool
  drag_delta_x : ℝ

/-- The value-update part of `CompassKnob::ui` (compass_knob.rs lines
199–226): while dragged, offset by `-drag_delta.x / width * spread`,
constrain, store and mark changed; on the release frame, when a snap step is
configured, snap the stored value (fault on a non-positive step), constrain
again, store and mark changed. Returns `some (new_value, changed)`, or
`none` for the assertion failure. -/
noncomputable def compass_knob_update (mode : KnobMode) (width spread : ℝ)
    (snap shift_snap min max : Option ℝ) (value : ℝ)
    (frame : CompassKnobFrame) : Option (ℝ × Bool) :=
  let dragged_state : ℝ × Bool :=
    if frame.dragged then
      (compass_constrain_value mode min max
        (value - frame.drag_delta_x / width * spread), true)
    else (value, false)
  if frame.drag_released then
    match (if frame.shift_only then shift_snap else snap) with
    | some snap_angle =>
        (snap_value dragged_state.1 snap_angle).map
          (fun nv => (compass_constrain_value mode min max nv, true))
    | none => some dragged_state
  else some dragged_state

/-- `map_angle_to_screen` (compass_knob.rs lines 238–239). -/
noncomputable def map_angle_to_screen (center_x value width spread angle : ℝ) : ℝ :=
  center_x - (value - angle) * (width / spread)

/-- `f32::to_degrees`. -/
noncomputable def toDegrees (x : ℝ) : ℝ := x * (180 / Real.pi)

/-- `start_degrees` (compass_knob.rs lines 344–346): the lower edge of the
visible window in degrees, floored to a multiple of 10. -/
noncomputable def start_degrees (value spread : ℝ) : ℤ :=
  10 * ⌊toDegrees (value - spread / 2) / 10⌋

/-- `end_degrees` (compass_knob.rs lines 348–350): the upper edge of the
visible window in degrees, ceiled to a multiple of 10. -/
noncomputable def end_degrees (value spread : ℝ) : ℤ :=
  10 * ⌈toDegrees (value + spread / 2) / 10⌉

/-- `(start_degrees..=end_degrees).step_by(5)` (compass_knob.rs line 352). -/
def tick_degrees (s e : ℤ) : List ℤ :=
  if s ≤ e then
    (List.range ((e - s).toNat / 5 + 1)).map (fun (k : ℕ) => s + 5 * (k : ℤ))
  else []

/-- `(degree / 90).rem_euclid(4) as usize` (compass_knob.rs line 361). -/
def label_index (degree : ℤ) : Fin 4 :=
  ⟨((degree / 90) % 4).toNat, by
    have h0 := Int.emod_nonneg (degree / 90) (by norm_num : (4 : ℤ) ≠ 0)
    have h1 := Int.emod_lt_of_pos (degree / 90) (by norm_num : (0 : ℤ) < 4)
    omega⟩

/-- The tick classifier (compass_knob.rs lines 360–371): scale and optional
label per degree; the source's `unreachable!()` arm is `none`. -/
def tick_classify (labels : Fin 4 → String) (degree : ℤ) :
    Option (ℚ × Option String) :=
  if degree % 90 = 0 then some (1, some (labels (label_index degree)))
  else if degree % 30 = 0 then some (0.75, none)
  else if degree % 10 = 0 then some (0.5, none)
  else if degree % 5 = 0 then some (0.3, none)
  else none

-- ---------------------------------------------------------------------------
-- Basic facts about the real models of the Rust primitives
-- ---------------------------------------------------------------------------

theorem TAU_pos : 0 < TAU := by
  have := Real.pi_pos
  unfold TAU
  linarith

theorem rustRem_nonneg_bounds (x y : ℝ) (hy : 0 < y) (hx : 0 ≤ x) :
    0 ≤ rustRem x y ∧ rustRem x y < y := by
  have ht : 0 ≤ x / y := div_nonneg hx hy.le
  have h1 : ((⌊x / y⌋ : ℤ) : ℝ) ≤ x / y := Int.floor_le _
  have h2 : x / y < (⌊x / y⌋ : ℤ) + 1 := Int.lt_floor_add_one _
  have h1' : ((⌊x / y⌋ : ℤ) : ℝ) * y ≤ x := (le_div_iff hy).mp h1
  have h2' : x < (((⌊x / y⌋ : ℤ) : ℝ) + 1) * y := (div_lt_iff hy).mp h2
  unfold rustRem rustTrunc
  rw [if_pos ht]
  constructor <;> nlinarith

theorem rustRem_neg_bounds (x y : ℝ) (hy : 0 < y) (hx : x < 0) :
    -y < rustRem x y ∧ rustRem x y ≤ 0 := by
  have ht : x / y < 0 := div_neg_of_neg_of_pos hx hy
  have h1 : x / y ≤ ((⌈x / y⌉ : ℤ) : ℝ) := Int.le_ceil _
  have h2 : ((⌈x / y⌉ : ℤ) : ℝ) < x / y + 1 := Int.ceil_lt_add_one _
  have hxy : x / y * y = x := div_mul_cancel₀ x hy.ne'
  have h1' : x ≤ ((⌈x / y⌉ : ℤ) : ℝ) * y := by nlinarith
  have h2' : ((⌈x / y⌉ : ℤ) : ℝ) * y < x + y := by nlinarith
  unfold rustRem rustTrunc
  rw [if_neg (not_le.mpr ht)]
  constructor <;> nlinarith

theorem rustRem_bounds (x y : ℝ) (hy : 0 < y) :
    -y < rustRem x y ∧ rustRem x y < y := by
  rcases le_or_lt 0 x with hx | hx
  · have := rustRem_nonneg_bounds x y hy hx
    constructor <;> linarith
  · have := rustRem_neg_bounds x y hy hx
    constructor <;> linarith

theorem rustRem_self_of_mem (x y : ℝ) (hy : 0 < y) (h1 : -y < x) (h2 : x < y) :
    rustRem x y = x := by
  unfold rustRem rustTrunc
  rcases le_or_lt 0 x with hx | hx
  · have ht : 0 ≤ x / y := div_nonneg hx hy.le
    rw [if_pos ht]
    have hz : ⌊x / y⌋ = 0 := by
      rw [Int.floor_eq_zero_iff]
      refine ⟨ht, ?_⟩
      rw [div_lt_one hy]
      exact h2
    rw [hz]
    push_cast
    ring
  · have ht : x / y < 0 := div_neg_of_neg_of_pos hx hy
    rw [if_neg (not_le.mpr ht)]
    have hz : ⌈x / y⌉ = 0 := by
      rw [Int.ceil_eq_zero_iff]
      simp only [Set.mem_Ioc]
      refine ⟨?_, le_of_lt ht⟩
      rw [lt_div_iff hy]
      linarith
    rw [hz]
    push_cast
    ring

theorem rustRound_exists (x : ℝ) :
    ∃ n : ℤ, rustRound x = (n : ℝ) ∧ |x - (n : ℝ)| ≤ 1 / 2 := by
  unfold rustRound
  rcases le_or_lt 0 x with hx | hx
  · refine ⟨⌊x + 1 / 2⌋, by rw [if_pos hx], ?_⟩
    have h1 : ((⌊x + 1 / 2⌋ : ℤ) : ℝ) ≤ x + 1 / 2 := Int.floor_le _
    have h2 : x + 1 / 2 < (⌊x + 1 / 2⌋ : ℤ) + 1 := Int.lt_floor_add_one _
    rw [abs_le]
    constructor <;> linarith
  · refine ⟨-⌊-x + 1 / 2⌋, by rw [if_neg (not_le.mpr hx)]; push_cast; ring, ?_⟩
    have h1 : ((⌊-x + 1 / 2⌋ : ℤ) : ℝ) ≤ -x + 1 / 2 := Int.floor_le _
    have h2 : -x + 1 / 2 < (⌊-x + 1 / 2⌋ : ℤ) + 1 := Int.lt_floor_add_one _
    rw [abs_le]
    push_cast
    constructor <;> linarith

theorem normalized_angle_mem_Icc (x : ℝ) :
    normalized_angle x ∈ Set.Icc (-Real.pi) Real.pi := by
  have hpi := Real.pi_pos
  have hb := rustRem_bounds x TAU TAU_pos
  unfold normalized_angle
  simp only [Set.mem_Icc]
  unfold TAU at hb ⊢
  split
  · constructor <;> linarith
  · split
    · constructor <;> linarith
    · constructor <;> linarith

theorem normalized_angle_fixed (x : ℝ)
    (h : x ∈ Set.Icc (-Real.pi) Real.pi) : normalized_angle x = x := by
  have hpi := Real.pi_pos
  simp only [Set.mem_Icc] at h
  have hrem : rustRem x TAU = x := by
    apply rustRem_self_of_mem x TAU TAU_pos
    · unfold TAU; linarith [h.1]
    · unfold TAU; linarith [h.2]
  unfold normalized_angle
  rw [hrem, if_neg (not_lt.mpr h.2), if_neg (not_lt.mpr (neg_le.mp (neg_le.mpr h.1)))]

theorem normalized_angle_unsigned_incl_mem (x : ℝ) :
    normalized_angle_unsigned_incl x ∈ Set.Ico 0 TAU := by
  have htau := TAU_pos
  have h1 : ((⌊x / TAU⌋ : ℤ) : ℝ) ≤ x / TAU := Int.floor_le _
  have h2 : x / TAU < (⌊x / TAU⌋ : ℤ) + 1 := Int.lt_floor_add_one _
  have h1' : ((⌊x / TAU⌋ : ℤ) : ℝ) * TAU ≤ x := (le_div_iff htau).mp h1
  have h2' : x < (((⌊x / TAU⌋ : ℤ) : ℝ) + 1) * TAU := (div_lt_iff htau).mp h2
  unfold normalized_angle_unsigned_incl
  simp only [Set.mem_Ico]
  constructor <;> nlinarith

theorem dial_unsigned_fold_mem (x : ℝ) (h : x ∈ Set.Icc (-Real.pi) Real.pi) :
    dial_unsigned_fold x ∈ Set.Ico 0 TAU := by
  have hpi := Real.pi_pos
  simp only [Set.mem_Icc] at h
  have hx : 0 ≤ x + TAU := by unfold TAU; linarith [h.1]
  have := rustRem_nonneg_bounds (x + TAU) TAU TAU_pos hx
  unfold dial_unsigned_fold
  simp only [Set.mem_Ico]
  exact this

-- ---------------------------------------------------------------------------
-- Evaluation helpers: polar angles and orientation transforms
-- ---------------------------------------------------------------------------

theorem vec2_angle_mem_Ioc (v : ℝ × ℝ) :
    vec2_angle v ∈ Set.Ioc (-Real.pi) Real.pi :=
  Complex.arg_mem_Ioc _

theorem vec2_angle_east : vec2_angle (1, 0) = 0 := by
  have h : (⟨1, 0⟩ : ℂ) = 1 := by simp [Complex.ext_iff]
  unfold vec2_angle
  rw [h, Complex.arg_one]

theorem vec2_angle_north : vec2_angle (0, 1) = Real.pi / 2 := by
  have h : (⟨0, 1⟩ : ℂ) = Complex.I := by simp [Complex.ext_iff]
  unfold vec2_angle
  rw [h, Complex.arg_I]

theorem vec2_angle_west : vec2_angle (-1, 0) = Real.pi := by
  have h : (⟨-1, 0⟩ : ℂ) = -1 := by simp [Complex.ext_iff]
  unfold vec2_angle
  rw [h, Complex.arg_neg_one]

theorem vec2_angle_south : vec2_angle (0, -1) = -(Real.pi / 2) := by
  have h : (⟨0, -1⟩ : ℂ) = -Complex.I := by simp [Complex.ext_iff]
  unfold vec2_angle
  rw [h, Complex.arg_neg_I]

theorem vec2_angle_zero : vec2_angle (0, 0) = 0 := by
  have h : (⟨0, 0⟩ : ℂ) = 0 := by simp [Complex.ext_iff]
  unfold vec2_angle
  rw [h, Complex.arg_zero]

theorem Rot2.mulVec2_zero (r : Rot2) : r.mulVec2 (0, 0) = (0, 0) := by
  simp [Rot2.mulVec2]

theorem vec2_angle_zero_pair : vec2_angle 0 = 0 := by
  unfold vec2_angle
  simp only [Prod.fst_zero, Prod.snd_zero]
  have h : (⟨0, 0⟩ : ℂ) = 0 := by simp [Complex.ext_iff]
  rw [h, Complex.arg_zero]

theorem rot2_Right_inverse_mulVec2 (v : ℝ × ℝ) :
    (AngleKnobOrientation.Right).rot2.inverse.mulVec2 v = v := by
  simp only [AngleKnobOrientation.rot2, Rot2.from_angle, Rot2.inverse,
    Rot2.mulVec2, Rot2.length_sq, mul_zero, Real.sin_zero, Real.cos_zero]
  norm_num

theorem rot2_Top_inverse_mulVec2 (v : ℝ × ℝ) :
    (AngleKnobOrientation.Top).rot2.inverse.mulVec2 v = (-v.2, v.1) := by
  have h : Real.pi * 1.5 = Real.pi + Real.pi / 2 := by ring
  have hs : Real.sin (Real.pi * 1.5) = -1 := by
    rw [h, Real.sin_add]
    simp
  have hc : Real.cos (Real.pi * 1.5) = 0 := by
    rw [h, Real.cos_add]
    simp
  simp only [AngleKnobOrientation.rot2, Rot2.from_angle, Rot2.inverse,
    Rot2.mulVec2, Rot2.length_sq, hs, hc]
  norm_num

theorem dial_eval_simple :
    angle_knob_update .Right .Clockwise .Signed 0 none none none none
      ⟨true, false, false, (1, 0)⟩ = some (0, true) := by
  simp [angle_knob_update, apply_snap, apply_mode, apply_min_max,
    dial_raw_angle, value_direction, rot2_Right_inverse_mulVec2,
    vec2_angle_east, snap_value]

-- ---------------------------------------------------------------------------
-- C2: wrap normalization ranges and idempotence
-- ---------------------------------------------------------------------------

/-- C2 counterexample: the claim puts `constrain(x, Signed, None, None)` in
the half-open interval `(-π, π]` for every real `x`; but the `Signed` fold
used by the compass fixes `-π` (its bounds are inclusive, as the source
comment documents), so the result at `x = -π` is `-π`, outside `(-π, π]`. -/
theorem C2_counterexample :
    normalized_angle (-Real.pi) = -Real.pi ∧
      normalized_angle (-Real.pi) ∉ Set.Ioc (-Real.pi) Real.pi := by
  have hpi := Real.pi_pos
  have heval : normalized_angle (-Real.pi) = -Real.pi := by
    have hrem : rustRem (-Real.pi) TAU = -Real.pi := by
      apply rustRem_self_of_mem _ _ TAU_pos <;> unfold TAU <;> linarith
    unfold normalized_angle
    rw [hrem, if_neg (by linarith), if_neg (lt_irrefl _)]
  refine ⟨heval, ?_⟩
  rw [heval]
  simp [Set.mem_Ioc]

/-- C2 (amended): the `Signed` wrap normalization with no min/max lands in
the closed interval `[-π, π]` (the `-π` endpoint included) and is
idempotent, and the `Unsigned` wrap normalization with no min/max lands in
`[0, 2π)`, for every real input. -/
theorem C2_amended :
    (∀ x : ℝ, normalized_angle x ∈ Set.Icc (-Real.pi) Real.pi ∧
        normalized_angle (normalized_angle x) = normalized_angle x) ∧
    (∀ x : ℝ, normalized_angle_unsigned_incl x ∈ Set.Ico 0 (2 * Real.pi)) := by
  refine ⟨fun x => ⟨normalized_angle_mem_Icc x,
    normalized_angle_fixed _ (normalized_angle_mem_Icc x)⟩, fun x => ?_⟩
  have h := normalized_angle_unsigned_incl_mem x
  unfold TAU at h
  exact h

-- ---------------------------------------------------------------------------
-- C1: canonical interval of committed values
-- ---------------------------------------------------------------------------

theorem apply_snap_none (v : ℝ) : apply_snap none v = some v := rfl

theorem apply_min_max_none_none (v : ℝ) : apply_min_max none none v = v := rfl

theorem dial_raw_angle_mem (o : AngleKnobOrientation)
    (d : AngleKnobDirection) (p : ℝ × ℝ) :
    dial_raw_angle o d p ∈ Set.Icc (-Real.pi) Real.pi := by
  have h := vec2_angle_mem_Ioc (o.rot2.inverse.mulVec2 p)
  simp only [Set.mem_Ioc] at h
  unfold dial_raw_angle
  cases d <;>
    simp only [value_direction, mul_one, mul_neg_one, Set.mem_Icc] <;>
    constructor <;> linarith [h.1, h.2]

theorem apply_mode_Signed (value x : ℝ) :
    apply_mode .Signed value x = x := by
  simp [apply_mode]

theorem apply_mode_Unsigned (value x : ℝ) :
    apply_mode .Unsigned value x = dial_unsigned_fold x := by
  simp [apply_mode]

theorem compass_constrain_Signed_mem (x : ℝ) :
    compass_constrain_value .Signed none none x ∈
      Set.Icc (-Real.pi) Real.pi := by
  have h := normalized_angle_mem_Icc x
  simpa [compass_constrain_value, apply_min_max] using h

theorem compass_constrain_Unsigned_mem (x : ℝ) :
    compass_constrain_value .Unsigned none none x ∈ Set.Ico 0 (2 * Real.pi) := by
  have h := normalized_angle_unsigned_incl_mem x
  unfold TAU at h
  simpa [compass_constrain_value, apply_min_max] using h


theorem compass_committed_form (mode : KnobMode) (width spread : ℝ)
    (snap shift_snap min max : Option ℝ) (value : ℝ)
    (frame : CompassKnobFrame) (v : ℝ) (b : Bool)
    (h : compass_knob_update mode width spread snap shift_snap min max value
      frame = some (v, b)) (hb : b = true) :
    ∃ x, v = compass_constrain_value mode min max x := by
  simp only [compass_knob_update] at h
  split at h
  · split at h
    · rw [snap_value] at h
      split at h
      · simp only [Option.map_some', Option.some_inj, Prod.mk.injEq] at h
        exact ⟨_, h.1.symm⟩
      · simp at h
    · rw [Option.some_inj] at h
      split at h
      · rw [Prod.mk.injEq] at h
        exact ⟨_, h.1.symm⟩
      · rw [Prod.mk.injEq] at h
        rw [← h.2] at hb
        simp at hb
  · rw [Option.some_inj] at h
    split at h
    · rw [Prod.mk.injEq] at h
      exact ⟨_, h.1.symm⟩
    · rw [Prod.mk.injEq] at h
      rw [← h.2] at hb
      simp at hb

/-- C1 counterexample: the claim asserts the committed dial value (with no
min/max) is always folded into the canonical interval "including after
snapping". But the dial snaps *after* the fold and never re-folds: in
`Signed` mode with a snap step of `2`, a pointer at `(-1, 0)` (raw angle
`π`) commits `round(π/2)·2 = 4`, which lies outside `(-π, π]`. -/
theorem C1_counterexample :
    angle_knob_update .Right .Clockwise .Signed 0 none none (some 2) none
        ⟨true, false, false, (-1, 0)⟩ = some (4, true) ∧
      (4 : ℝ) ∉ Set.Ioc (-Real.pi) Real.pi := by
  have hpi3 : (3 : ℝ) < Real.pi := Real.pi_gt_three
  have hpi4 : Real.pi < 3.15 := Real.pi_lt_315
  have hfloor : ⌊Real.pi / 2 + 1 / 2⌋ = 2 := by
    rw [Int.floor_eq_iff]
    constructor <;> push_cast <;> linarith
  have hround : rustRound (Real.pi / 2) = 2 := by
    unfold rustRound
    rw [if_pos (by linarith), hfloor]
    norm_num
  have h02 : (0 : ℝ) < 2 := by norm_num
  constructor
  · simp [angle_knob_update, apply_snap, dial_raw_angle,
      rot2_Right_inverse_mulVec2, vec2_angle_west, value_direction,
      apply_mode_Signed, snap_value, h02, hround, apply_min_max]
    norm_num
  · simp only [Set.mem_Ioc, not_and_or, not_le]
    right
    linarith

/-- C1 (amended): on every frame that commits a value with no min/max set,
the committed value is folded as follows. The compass (both the drag-commit
path and the snap-on-release path, which re-constrains after snapping)
commits into `[-π, π]` in `Signed` mode (the `-π` endpoint included) and
into `[0, 2π)` in `Unsigned` mode. The dial, when no snap step applies to
the frame, likewise commits into `[-π, π]` (`Signed`) and `[0, 2π)`
(`Unsigned`); with a snap step the dial snaps after the fold without
re-folding and can commit outside these intervals. -/
theorem C1_amended :
    (∀ (o : AngleKnobOrientation) (d : AngleKnobDirection)
        (mode : AngleKnobMode) (value : ℝ) (frame : AngleKnobFrame)
        (v : ℝ) (b : Bool),
        angle_knob_update o d mode value none none none none frame =
          some (v, b) →
        b = true →
        (mode = .Signed → v ∈ Set.Icc (-Real.pi) Real.pi) ∧
        (mode = .Unsigned → v ∈ Set.Ico 0 (2 * Real.pi))) ∧
    (∀ (mode : KnobMode) (width spread : ℝ) (snap shift_snap : Option ℝ)
        (value : ℝ) (frame : CompassKnobFrame) (v : ℝ) (b : Bool),
        compass_knob_update mode width spread snap shift_snap none none
          value frame = some (v, b) →
        b = true →
        (mode = .Signed → v ∈ Set.Icc (-Real.pi) Real.pi) ∧
        (mode = .Unsigned → v ∈ Set.Ico 0 (2 * Real.pi))) := by
  constructor
  · intro o d mode value frame v b h hb
    simp only [angle_knob_update, ite_self, apply_snap_none, Option.map_some',
      apply_min_max_none_none] at h
    split at h
    · rw [Option.some_inj, Prod.mk.injEq] at h
      obtain ⟨h1, _⟩ := h
      have hmem := dial_raw_angle_mem o d frame.pointer_rel
      constructor
      · rintro rfl
        rw [apply_mode_Signed] at h1
        rw [← h1]
        exact hmem
      · rintro rfl
        rw [apply_mode_Unsigned] at h1
        rw [← h1]
        have hf := dial_unsigned_fold_mem _ hmem
        unfold TAU at hf
        exact hf
    · rw [Option.some_inj, Prod.mk.injEq] at h
      rw [← h.2] at hb
      simp at hb
  · intro mode width spread snap shift_snap value frame v b h hb
    obtain ⟨x, rfl⟩ :=
      compass_committed_form mode width spread snap shift_snap none none
        value frame v b h hb
    constructor
    · rintro rfl
      exact compass_constrain_Signed_mem x
    · rintro rfl
      exact compass_constrain_Unsigned_mem x

/-- C1 amended witness: a concrete committing dial frame (`Signed`, pointer
at `(1, 0)`, no snap) commits `0`, inside `[-π, π]`. -/
theorem C1_amended_witness :
    angle_knob_update .Right .Clockwise .Signed 0 none none none none
        ⟨true, false, false, (1, 0)⟩ = some (0, true) ∧
      (0 : ℝ) ∈ Set.Icc (-Real.pi) Real.pi := by
  refine ⟨dial_eval_simple, ?_⟩
  exact (C1_amended.1 _ _ _ _ _ _ _ dial_eval_simple rfl).1 rfl

-- ---------------------------------------------------------------------------
-- C3: SpinAround continuity
-- ---------------------------------------------------------------------------

/-- C3: in `SpinAround` mode, for every previous value `p` and raw candidate
`a ∈ (-π, π]`, the dial's continuation (add `round(p / 2π)` turns, then
correct by one turn when the delta exceeds `π` in either direction) ends at
most `π` away from `p` and is congruent to `a` modulo `2π`. -/
theorem C3_spin_around (p a : ℝ) (ha : a ∈ Set.Ioc (-Real.pi) Real.pi) :
    |spin_around p a - p| ≤ Real.pi ∧
      ∃ k : ℤ, spin_around p a = a + k * (2 * Real.pi) := by
  simp only [Set.mem_Ioc] at ha
  have hpi := Real.pi_pos
  obtain ⟨n, hn, hn2⟩ := rustRound_exists (p / TAU)
  have htau := TAU_pos
  have habs := abs_le.mp hn2
  have hmul := mul_le_mul_of_nonneg_right habs.2 htau.le
  have hmul2 := mul_le_mul_of_nonneg_right habs.1 htau.le
  have hexp : (p / TAU - n) * TAU = p - n * TAU := by
    field_simp
    ring
  rw [hexp] at hmul hmul2
  have hTAU2 : TAU = 2 * Real.pi := rfl
  rw [hTAU2] at hmul hmul2
  have hs : spin_around p a =
      if a + n * TAU - p > Real.pi then a + n * TAU - TAU
      else if a + n * TAU - p < -Real.pi then a + n * TAU + TAU
      else a + n * TAU := by
    simp only [spin_around, hn]
  by_cases hc1 : a + n * TAU - p > Real.pi
  · rw [hs, if_pos hc1]
    rw [hTAU2] at hc1 ⊢
    constructor
    · rw [abs_le]
      constructor <;> linarith [ha.1, ha.2]
    · refine ⟨n - 1, ?_⟩
      push_cast
      ring
  · rw [if_neg hc1] at hs
    rw [hTAU2] at hc1
    by_cases hc2 : a + n * TAU - p < -Real.pi
    · rw [hs, if_pos hc2]
      rw [hTAU2] at hc2 ⊢
      constructor
      · rw [abs_le]
        constructor <;> linarith [ha.1, ha.2]
      · refine ⟨n + 1, ?_⟩
        push_cast
        ring
    · rw [hs, if_neg hc2]
      rw [hTAU2] at hc2 ⊢
      constructor
      · rw [abs_le]
        push_neg at hc1 hc2
        constructor <;> linarith
      · exact ⟨n, rfl⟩

/-- C3 witness: the hypothesis and conclusion at `p = 0`, `a = 1`. -/
theorem C3_spin_around_witness :
    (1 : ℝ) ∈ Set.Ioc (-Real.pi) Real.pi ∧
      (|spin_around 0 1 - 0| ≤ Real.pi ∧
        ∃ k : ℤ, spin_around 0 1 = 1 + k * (2 * Real.pi)) := by
  have h1 : (1 : ℝ) ∈ Set.Ioc (-Real.pi) Real.pi := by
    simp only [Set.mem_Ioc]
    constructor <;> linarith [Real.pi_gt_three]
  exact ⟨h1, C3_spin_around 0 1 h1⟩

-- ---------------------------------------------------------------------------
-- C4: dial pointer-to-angle mapping
-- ---------------------------------------------------------------------------

/-- C4: the orientation transforms are rotations by `3π/2` (`Top`), `0`
(`Right`), `π/2` (`Bottom`) and `π` (`Left`); the winding sign is `+1` for
`Clockwise` and `-1` for `Counterclockwise`; and with `Top` orientation and
`Clockwise` winding a pointer at screen angle `θ ∈ {0, π/2, π, 3π/2}`
commits the polar angle of the inverse-rotated pointer vector: `π/2`, `π`,
`-π/2` and `0` respectively (each `θ + π/2` folded into `(-π, π]`),
independently of the previous value. -/
theorem C4_dial_mapping :
    (AngleKnobOrientation.Top.rot2 = Rot2.from_angle (3 * Real.pi / 2) ∧
      AngleKnobOrientation.Right.rot2 = Rot2.from_angle 0 ∧
      AngleKnobOrientation.Bottom.rot2 = Rot2.from_angle (Real.pi / 2) ∧
      AngleKnobOrientation.Left.rot2 = Rot2.from_angle Real.pi) ∧
    (value_direction .Clockwise = 1 ∧
      value_direction .Counterclockwise = -1) ∧
    (∀ value : ℝ,
      angle_knob_update .Top .Clockwise .Signed value none none none none
          ⟨true, false, false, (1, 0)⟩ = some (Real.pi / 2, true) ∧
      angle_knob_update .Top .Clockwise .Signed value none none none none
          ⟨true, false, false, (0, 1)⟩ = some (Real.pi, true) ∧
      angle_knob_update .Top .Clockwise .Signed value none none none none
          ⟨true, false, false, (-1, 0)⟩ = some (-(Real.pi / 2), true) ∧
      angle_knob_update .Top .Clockwise .Signed value none none none none
          ⟨true, false, false, (0, -1)⟩ = some (0, true)) := by
  refine ⟨⟨?_, ?_, ?_, ?_⟩, ⟨rfl, rfl⟩, fun value => ⟨?_, ?_, ?_, ?_⟩⟩
  · show Rot2.from_angle (Real.pi * 1.5) = _
    rw [show Real.pi * 1.5 = 3 * Real.pi / 2 by ring]
  · show Rot2.from_angle (Real.pi * 0) = _
    rw [mul_zero]
  · show Rot2.from_angle (Real.pi * 0.5) = _
    rw [show Real.pi * 0.5 = Real.pi / 2 by ring]
  · show Rot2.from_angle (Real.pi * 1) = _
    rw [mul_one]
  · simp [angle_knob_update, apply_snap, apply_mode_Signed, dial_raw_angle,
      rot2_Top_inverse_mulVec2, value_direction, vec2_angle_north,
      apply_min_max]
  · simp [angle_knob_update, apply_snap, apply_mode_Signed, dial_raw_angle,
      rot2_Top_inverse_mulVec2, value_direction, vec2_angle_west,
      apply_min_max]
  · simp [angle_knob_update, apply_snap, apply_mode_Signed, dial_raw_angle,
      rot2_Top_inverse_mulVec2, value_direction, vec2_angle_south,
      apply_min_max]
  · simp [angle_knob_update, apply_snap, apply_mode_Signed, dial_raw_angle,
      rot2_Top_inverse_mulVec2, value_direction, vec2_angle_east,
      apply_min_max]

-- ---------------------------------------------------------------------------
-- C5: snapping rounds to the nearest multiple; non-positive steps fault
-- ---------------------------------------------------------------------------

/-- C5: for a positive step the shared snap of both controls returns the
multiple of the step nearest to the value; for a non-positive step it
faults (modelled by `none`) instead of returning any number. -/
theorem C5_snap :
    (∀ v s : ℝ, 0 < s →
      ∃ k : ℤ, snap_value v s = some ((k : ℝ) * s) ∧
        ∀ m : ℤ, |v - (k : ℝ) * s| ≤ |v - (m : ℝ) * s|) ∧
    (∀ v s : ℝ, s ≤ 0 → snap_value v s = none) := by
  constructor
  · intro v s hs
    obtain ⟨k, hk, hk2⟩ := rustRound_exists (v / s)
    refine ⟨k, ?_, ?_⟩
    · rw [snap_value, if_pos hs, hk]
    · intro m
      have hvk : v - (k : ℝ) * s = (v / s - k) * s := by
        field_simp
        ring
      have hvm : v - (m : ℝ) * s = (v / s - m) * s := by
        field_simp
        ring
      rw [hvk, hvm, abs_mul, abs_mul, abs_of_pos hs]
      by_cases hm : m = k
      · subst hm
        exact le_refl _
      · have h1 : (1 : ℝ) ≤ |(k : ℝ) - m| := by
          have hne : k - m ≠ 0 := sub_ne_zero.mpr (fun hh => hm hh.symm)
          have := Int.one_le_abs hne
          calc (1 : ℝ) = ((1 : ℤ) : ℝ) := by norm_num
            _ ≤ ((|k - m| : ℤ) : ℝ) := by exact_mod_cast this
            _ = |(k : ℝ) - m| := by push_cast; rfl
        have h2 : |(k : ℝ) - m| ≤ |(k : ℝ) - v / s| + |v / s - m| :=
          abs_sub_le _ _ _
        have h3 : |(k : ℝ) - v / s| = |v / s - k| := abs_sub_comm _ _
        have h4 : |v / s - m| ≥ 1 / 2 := by
          rw [h3] at h2
          linarith
        have h5 : |v / s - k| ≤ 1 / 2 := hk2
        exact mul_le_mul_of_nonneg_right (by linarith) hs.le
  · intro v s hs
    rw [snap_value, if_neg (not_lt.mpr hs)]

/-- C5 witness: step `1` snaps `0.7` to the nearest integer; step `-1`
faults. -/
theorem C5_snap_witness :
    ((0 : ℝ) < 1 ∧ ∃ k : ℤ, snap_value 0.7 1 = some ((k : ℝ) * 1) ∧
      ∀ m : ℤ, |(0.7 : ℝ) - (k : ℝ) * 1| ≤ |(0.7 : ℝ) - (m : ℝ) * 1|) ∧
    ((-1 : ℝ) ≤ 0 ∧ snap_value 0.7 (-1) = none) :=
  ⟨⟨by norm_num, C5_snap.1 0.7 1 (by norm_num)⟩,
    ⟨by norm_num, C5_snap.2 0.7 (-1) (by norm_num)⟩⟩

-- ---------------------------------------------------------------------------
-- C6: when snapping is applied
-- ---------------------------------------------------------------------------

theorem dial_snap_eval (o : AngleKnobOrientation) (d : AngleKnobDirection)
    (mode : AngleKnobMode) (value : ℝ) (snap shift_snap : Option ℝ)
    (frame : AngleKnobFrame) (s : ℝ)
    (hcd : (frame.clicked || frame.dragged) = true)
    (hsel : (if frame.shift_only then shift_snap else snap) = some s)
    (hs : 0 < s) :
    angle_knob_update o d mode value none none snap shift_snap frame =
      some (rustRound (apply_mode mode value
        (dial_raw_angle o d frame.pointer_rel) / s) * s, true) := by
  rw [angle_knob_update, if_pos hcd, hsel]
  simp only [apply_snap]
  rw [snap_value, if_pos hs]
  simp only [Option.map_some', apply_min_max_none_none]

theorem compass_release_snap_eval (mode : KnobMode) (width spread : ℝ)
    (snap shift_snap min max : Option ℝ) (value : ℝ)
    (frame : CompassKnobFrame) (s : ℝ)
    (hrel : frame.drag_released = true)
    (hsel : (if frame.shift_only then shift_snap else snap) = some s)
    (hs : 0 < s) :
    compass_knob_update mode width spread snap shift_snap min max value
        frame =
      some (compass_constrain_value mode min max
        (rustRound ((if frame.dragged then
            compass_constrain_value mode min max
              (value - frame.drag_delta_x / width * spread)
          else value) / s) * s), true) := by
  simp only [compass_knob_update, hrel, hsel, if_true]
  rw [snap_value, if_pos hs]
  simp only [Option.map_some', apply_ite (Prod.fst (β := Bool))]

/-- C6: the dial applies the configured snap step on every clicked or
dragged frame — with no min/max it commits a multiple of the step — while
the compass ignores the snap configuration entirely on every non-release
frame (the update equals the update with no snap configured) and applies it
exactly on the drag-release frame, committing a re-constrained multiple of
the step. -/
theorem C6_snap_timing :
    (∀ (o : AngleKnobOrientation) (d : AngleKnobDirection)
        (mode : AngleKnobMode) (value : ℝ) (snap shift_snap : Option ℝ)
        (frame : AngleKnobFrame) (s : ℝ),
        (frame.clicked || frame.dragged) = true →
        (if frame.shift_only then shift_snap else snap) = some s →
        0 < s →
        ∃ k : ℤ, angle_knob_update o d mode value none none snap shift_snap
          frame = some ((k : ℝ) * s, true)) ∧
    (∀ (mode : KnobMode) (width spread : ℝ)
        (snap shift_snap min max : Option ℝ) (value : ℝ)
        (frame : CompassKnobFrame),
        frame.drag_released = false →
        compass_knob_update mode width spread snap shift_snap min max value
            frame =
          compass_knob_update mode width spread none none min max value
            frame) ∧
    (∀ (mode : KnobMode) (width spread : ℝ)
        (snap shift_snap min max : Option ℝ) (value : ℝ)
        (frame : CompassKnobFrame) (s : ℝ),
        frame.drag_released = true →
        (if frame.shift_only then shift_snap else snap) = some s →
        0 < s →
        ∃ k : ℤ, compass_knob_update mode width spread snap shift_snap min
            max value frame =
          some (compass_constrain_value mode min max ((k : ℝ) * s), true)) := by
  refine ⟨?_, ?_, ?_⟩
  · intro o d mode value snap shift_snap frame s hcd hsel hs
    obtain ⟨k, hk, _⟩ := rustRound_exists
      (apply_mode mode value (dial_raw_angle o d frame.pointer_rel) / s)
    exact ⟨k, by rw [dial_snap_eval o d mode value snap shift_snap frame s
      hcd hsel hs, hk]⟩
  · intro mode width spread snap shift_snap min max value frame hrel
    simp [compass_knob_update, hrel]
  · intro mode width spread snap shift_snap min max value frame s hrel hsel hs
    obtain ⟨k, hk, _⟩ := rustRound_exists
      ((if frame.dragged then
          compass_constrain_value mode min max
            (value - frame.drag_delta_x / width * spread)
        else value) / s)
    exact ⟨k, by rw [compass_release_snap_eval mode width spread snap
      shift_snap min max value frame s hrel hsel hs, hk]⟩

/-- C6 witness: the three parts at concrete committing frames. -/
theorem C6_snap_timing_witness :
    ((true || false) = true ∧
      (if (false : Bool) then (none : Option ℝ) else some 2) = some 2 ∧
      (0 : ℝ) < 2 ∧
      ∃ k : ℤ, angle_knob_update .Right .Clockwise .Signed 0 none none
        (some 2) none ⟨true, false, false, (-1, 0)⟩ =
          some ((k : ℝ) * 2, true)) ∧
    ((⟨true, false, false, 0⟩ : CompassKnobFrame).drag_released = false ∧
      compass_knob_update .Unsigned 1 1 (some 1) none none none 1
          ⟨true, false, false, 0⟩ =
        compass_knob_update .Unsigned 1 1 none none none none 1
          ⟨true, false, false, 0⟩) ∧
    ((⟨false, true, false, 0⟩ : CompassKnobFrame).drag_released = true ∧
      (if (false : Bool) then (none : Option ℝ) else some 1) = some 1 ∧
      (0 : ℝ) < 1 ∧
      ∃ k : ℤ, compass_knob_update .Unsigned 1 1 (some 1) none none none 1
        ⟨false, true, false, 0⟩ =
          some (compass_constrain_value .Unsigned none none ((k : ℝ) * 1),
            true)) :=
  ⟨⟨rfl, rfl, by norm_num,
      C6_snap_timing.1 _ _ _ _ _ _ _ _ rfl rfl (by norm_num)⟩,
    ⟨rfl, C6_snap_timing.2.1 _ _ _ _ _ _ _ _ _ rfl⟩,
    ⟨rfl, rfl, by norm_num,
      C6_snap_timing.2.2 _ _ _ _ _ _ _ _ _ _ rfl rfl (by norm_num)⟩⟩

-- ---------------------------------------------------------------------------
-- C7: pointer exactly at the dial center
-- ---------------------------------------------------------------------------

/-- C7 counterexample: the claim says a pointer exactly at the dial center
leaves the backing value unchanged. The code has no zero-vector special
case: `atan2(0, 0) = 0`, so a clicked frame with the pointer at the center
and previous value `1` commits `0`, changing the value. -/
theorem C7_counterexample :
    angle_knob_update .Right .Clockwise .Signed 1 none none none none
        ⟨true, false, false, (0, 0)⟩ = some (0, true) ∧ (0 : ℝ) ≠ 1 := by
  constructor
  · simp [angle_knob_update, apply_snap, apply_mode_Signed, dial_raw_angle,
      rot2_Right_inverse_mulVec2, vec2_angle_zero, vec2_angle_zero_pair,
      value_direction, apply_min_max]
  · norm_num

theorem dial_unsigned_fold_zero : dial_unsigned_fold 0 = 0 := by
  unfold dial_unsigned_fold rustRem rustTrunc
  rw [zero_add, div_self TAU_pos.ne']
  rw [if_pos (by norm_num : (0 : ℝ) ≤ 1)]
  norm_num

/-- C7 (amended): the code does not special-case the zero vector. The polar
angle of the zero vector is `0` (as for IEEE `atan2(0, 0)`), so a
committing frame with the pointer exactly at the center commits the
constrained value derived from raw angle `0`: with no snap and no min/max,
in `Signed` or `Unsigned` mode, it commits `0` (and marks the value
changed), regardless of the previous value. -/
theorem C7_amended (o : AngleKnobOrientation) (d : AngleKnobDirection)
    (mode : AngleKnobMode) (value : ℝ) (frame : AngleKnobFrame)
    (hcd : (frame.clicked || frame.dragged) = true)
    (hp : frame.pointer_rel = (0, 0))
    (hmode : mode = .Signed ∨ mode = .Unsigned) :
    angle_knob_update o d mode value none none none none frame =
      some (0, true) := by
  have hraw : dial_raw_angle o d (0, 0) = 0 := by
    unfold dial_raw_angle
    rw [Rot2.mulVec2_zero, vec2_angle_zero, zero_mul]
  rw [angle_knob_update, if_pos hcd, ite_self, hp, hraw]
  rcases hmode with rfl | rfl
  · rw [apply_mode_Signed]
    rfl
  · rw [apply_mode_Unsigned, dial_unsigned_fold_zero]
    rfl

/-- C7 amended witness: a centered click on a `Left`-oriented
counterclockwise `Signed` dial with previous value `5` commits `0`. -/
theorem C7_amended_witness :
    ((true || false) = true ∧
      ((⟨true, false, false, (0, 0)⟩ : AngleKnobFrame).pointer_rel =
        ((0 : ℝ), (0 : ℝ))) ∧
      (AngleKnobMode.Signed = .Signed ∨ AngleKnobMode.Signed = .Unsigned)) ∧
    angle_knob_update .Left .Counterclockwise .Signed 5 none none none none
        ⟨true, false, false, (0, 0)⟩ = some (0, true) :=
  ⟨⟨rfl, rfl, Or.inl rfl⟩,
    C7_amended _ _ _ _ _ rfl rfl (Or.inl rfl)⟩

-- ---------------------------------------------------------------------------
-- C8: ribbon screen mapping
-- ---------------------------------------------------------------------------

/-- C8: for positive width and spread, `screen_x(displayed_value)` is the
ribbon center, `screen_x(displayed_value + spread/2)` is the right edge
`center_x + width/2`, and `screen_x(displayed_value - spread/2)` is the
left edge `center_x - width/2`. -/
theorem C8_screen_mapping (center_x value width spread : ℝ)
    (hw : 0 < width) (hs : 0 < spread) :
    map_angle_to_screen center_x value width spread value = center_x ∧
    map_angle_to_screen center_x value width spread (value + spread / 2) =
      center_x + width / 2 ∧
    map_angle_to_screen center_x value width spread (value - spread / 2) =
      center_x - width / 2 := by
  have hsne := hs.ne'
  unfold map_angle_to_screen
  refine ⟨by ring, ?_, ?_⟩
  · field_simp
    ring
  · field_simp
    ring

/-- C8 witness: the mapping at `center_x = 5`, `value = 1`, `width = 4`,
`spread = 2`. -/
theorem C8_screen_mapping_witness :
    (0 : ℝ) < 4 ∧ (0 : ℝ) < 2 ∧
      (map_angle_to_screen 5 1 4 2 1 = 5 ∧
        map_angle_to_screen 5 1 4 2 (1 + 2 / 2) = 5 + 4 / 2 ∧
        map_angle_to_screen 5 1 4 2 (1 - 2 / 2) = 5 - 4 / 2) :=
  ⟨by norm_num, by norm_num,
    C8_screen_mapping 5 1 4 2 (by norm_num) (by norm_num)⟩

-- ---------------------------------------------------------------------------
-- C9: tick generation and classification
-- ---------------------------------------------------------------------------

/-- C9: the tick loop visits exactly the degrees `start + 5k` (for natural
`k`) up to the ceiled end of the window, where `start`/`end` are the window
edges floored/ceiled to multiples of 10; every visited degree is a multiple
of 5, and the classifier never reaches its `unreachable!()` arm: it returns
full height with the cardinal label `labels[(degree/90).rem_euclid(4)]` on
multiples of 90, `0.75` height on multiples of 30 (not 90), `0.5` height on
multiples of 10 (not 30), and `0.3` height on the remaining multiples of
5. -/
theorem C9_ticks :
    (∀ s e d : ℤ, d ∈ tick_degrees s e ↔
      ∃ k : ℕ, d = s + 5 * (k : ℤ) ∧ d ≤ e) ∧
    (∀ (labels : Fin 4 → String) (value spread : ℝ) (d : ℤ),
      d ∈ tick_degrees (start_degrees value spread)
        (end_degrees value spread) →
      d % 5 = 0 ∧
      tick_classify labels d =
        some (if d % 90 = 0 then ((1 : ℚ), some (labels (label_index d)))
          else if d % 30 = 0 then (0.75, none)
          else if d % 10 = 0 then (0.5, none)
          else (0.3, none))) := by
  have hmem : ∀ s e d : ℤ, d ∈ tick_degrees s e ↔
      ∃ k : ℕ, d = s + 5 * (k : ℤ) ∧ d ≤ e := by
    intro s e d
    unfold tick_degrees
    split
    · simp only [List.mem_map, List.mem_range]
      constructor
      · rintro ⟨a, ha, hd⟩
        exact ⟨a, hd.symm, by omega⟩
      · rintro ⟨a, rfl, hle⟩
        exact ⟨a, by omega, rfl⟩
    · simp only [List.not_mem_nil, false_iff]
      rintro ⟨k, rfl, hle⟩
      omega
  refine ⟨hmem, ?_⟩
  intro labels value spread d hd
  rw [hmem] at hd
  obtain ⟨k, hk, -⟩ := hd
  have h5 : d % 5 = 0 := by
    unfold start_degrees at hk
    omega
  constructor
  · exact h5
  · unfold tick_classify
    by_cases h90 : d % 90 = 0
    · simp [h90]
    · by_cases h30 : d % 30 = 0
      · simp [h90, h30]
      · by_cases h10 : d % 10 = 0
        · simp [h90, h30, h10]
        · simp [h90, h30, h10, h5]

/-- C9 witness: with `value = 0` and `spread = π/3` the window is
`[-30°, 30°]`; the visited degree `-30` is a multiple of 5 and classifies
as a `0.75`-height unlabeled tick. -/
theorem C9_ticks_witness :
    (-30 : ℤ) ∈ tick_degrees (start_degrees 0 (Real.pi / 3))
        (end_degrees 0 (Real.pi / 3)) ∧
      ((-30 : ℤ) % 5 = 0 ∧
        tick_classify (fun _ => "N") (-30) =
          some (if (-30 : ℤ) % 90 = 0 then
              ((1 : ℚ), some ((fun _ => "N") (label_index (-30))))
            else if (-30 : ℤ) % 30 = 0 then (0.75, none)
            else if (-30 : ℤ) % 10 = 0 then (0.5, none)
            else (0.3, none))) := by
  have hpi := Real.pi_pos
  have hs : start_degrees 0 (Real.pi / 3) = -30 := by
    have h1 : toDegrees (0 - Real.pi / 3 / 2) / 10 = -3 := by
      unfold toDegrees
      field_simp
      ring
    unfold start_degrees
    rw [h1]
    norm_num
  have he : end_degrees 0 (Real.pi / 3) = 30 := by
    have h1 : toDegrees (0 + Real.pi / 3 / 2) / 10 = 3 := by
      unfold toDegrees
      field_simp
      ring
    unfold end_degrees
    rw [h1]
    norm_num
  have hmem : (-30 : ℤ) ∈ tick_degrees (start_degrees 0 (Real.pi / 3))
      (end_degrees 0 (Real.pi / 3)) := by
    rw [hs, he]
    rw [C9_ticks.1]
    exact ⟨0, by norm_num, by norm_num⟩
  exact ⟨hmem, C9_ticks.2 (fun _ => "N") 0 (Real.pi / 3) (-30) hmem⟩

-- ---------------------------------------------------------------------------
-- C10: the changed flag is set unconditionally on interaction frames
-- ---------------------------------------------------------------------------

theorem compass_eval_simple :
    compass_knob_update .Unsigned 1 1 none none none none 1
      ⟨true, false, false, 0⟩ = some (1, true) := by
  have hfold : normalized_angle_unsigned_incl 1 = 1 := by
    unfold normalized_angle_unsigned_incl
    have h0 : ⌊(1 : ℝ) / TAU⌋ = 0 := by
      rw [Int.floor_eq_zero_iff]
      refine ⟨div_nonneg zero_le_one TAU_pos.le, ?_⟩
      rw [div_lt_one TAU_pos]
      unfold TAU
      linarith [Real.pi_gt_three]
    rw [h0]
    norm_num
  simp [compass_knob_update, compass_constrain_value, apply_min_max, hfold]

/-- C10: on every frame that processes a drag (or, for the dial, a click),
both controls report the value as changed, whatever the committed value is
— in particular (last conjunct) a dial frame that re-commits the very value
already stored (previous value `0`, pointer at angle `0`) still reports
`changed = true`. -/
theorem C10_changed_flag :
    (∀ (mode : KnobMode) (width spread : ℝ)
        (snap shift_snap min max : Option ℝ) (value : ℝ)
        (frame : CompassKnobFrame) (v : ℝ) (b : Bool),
        frame.dragged = true →
        compass_knob_update mode width spread snap shift_snap min max value
          frame = some (v, b) →
        b = true) ∧
    (∀ (o : AngleKnobOrientation) (d : AngleKnobDirection)
        (mode : AngleKnobMode) (value : ℝ)
        (min max snap_angle shift_snap_angle : Option ℝ)
        (frame : AngleKnobFrame) (v : ℝ) (b : Bool),
        (frame.clicked || frame.dragged) = true →
        angle_knob_update o d mode value min max snap_angle
          shift_snap_angle frame = some (v, b) →
        b = true) ∧
    angle_knob_update .Right .Clockwise .Signed 0 none none none none
      ⟨true, false, false, (1, 0)⟩ = some (0, true) := by
  refine ⟨?_, ?_, dial_eval_simple⟩
  · intro mode width spread snap shift_snap min max value frame v b hdr h
    simp only [compass_knob_update, hdr, if_true] at h
    split at h
    · split at h
      · rw [snap_value] at h
        split at h
        · simp only [Option.map_some', Option.some_inj, Prod.mk.injEq] at h
          exact h.2.symm
        · simp at h
      · simp only [Option.some_inj, Prod.mk.injEq] at h
        exact h.2.symm
    · simp only [Option.some_inj, Prod.mk.injEq] at h
      exact h.2.symm
  · intro o d mode value min max snap_angle shift_snap_angle frame v b hcd h
    rw [angle_knob_update, if_pos hcd] at h
    rcases hsv : apply_snap
        (if frame.shift_only then shift_snap_angle else snap_angle)
        (apply_mode mode value (dial_raw_angle o d frame.pointer_rel))
      with _ | nv
    · rw [hsv] at h
      simp at h
    · rw [hsv] at h
      simp only [Option.map_some', Option.some_inj, Prod.mk.injEq] at h
      exact h.2.symm

/-- C10 witness: concrete dragged/clicked frames where the committed value
equals the previous value and the flag is still `true`. -/
theorem C10_changed_flag_witness :
    (⟨true, false, false, 0⟩ : CompassKnobFrame).dragged = true ∧
    compass_knob_update .Unsigned 1 1 none none none none 1
        ⟨true, false, false, 0⟩ = some (1, true) ∧
    (true : Bool) = true ∧
    angle_knob_update .Right .Clockwise .Signed 0 none none none none
        ⟨true, false, false, (1, 0)⟩ = some (0, true) ∧
    (true : Bool) = true :=
  ⟨rfl, compass_eval_simple,
    C10_changed_flag.1 _ _ _ _ _ _ _ _ ⟨true, false, false, 0⟩ _ _ rfl
      compass_eval_simple,
    dial_eval_simple,
    C10_changed_flag.2.1 _ _ _ _ _ _ _ _ ⟨true, false, false, (1, 0)⟩ _ _
      rfl dial_eval_simple⟩
